import Mathlib

set_option maxHeartbeats 1000000
set_option maxRecDepth 4000

/-!
Verification of the OrthoView planar-rectification core.

The definitions below are a shallow embedding of `OrthoView.py`:
`PerspectiveRectButton.setCorner` (corner collection and canonical sorting),
`OrthoView.canTransform`, `OrthoView.getTransform`, `OrthoView.transformPoint`,
`MyToolBar.set_message` (plate-coordinate reporting) and
`MyMplCanvas.moveToBeam` (displacement production).  Machine floats are
embedded as exact rationals; Python `int()` truncation is made explicit.
External OpenCV routines (`cv2.getPerspectiveTransform`,
`cv2.perspectiveTransform`, `cv2.boundingRect`) are not repository code:
the point application and the bounding box are modelled from the spec, and
the 4-point solver is either kept as a parameter of `getTransform` or
characterised by the constraint system it solves (`IsHomographyFor`).
-/

namespace OrthoView

/-- Image-space point with integer pixel coordinates, as produced by
`int(xdata), int(ydata)` in `setCorner`. -/
abbrev Pt := ℤ × ℤ

/-- Insert a point into a list, placing it after every element whose key is
less than or equal to its own key.  This is the insertion step of a stable
sort, matching the stability guarantee of Python `sorted`. -/
def insertLe (key : Pt → ℤ) (p : Pt) : List Pt → List Pt
  | [] => [p]
  | q :: qs => if key q ≤ key p then q :: insertLe key p qs else p :: q :: qs

/-- Stable sort by an integer key: the embedding of Python
`sorted(lst, key=...)`, which is guaranteed stable. -/
def sortByKey (key : Pt → ℤ) (l : List Pt) : List Pt :=
  l.foldl (fun acc p => insertLe key p acc) []

/-- Canonicalization of the four corners, embedded from
`PerspectiveRectButton.setCorner` (`OrthoView.py` lines 301-305):
stable sort by y, split into the first two ("top") and last two ("bottom"),
sort each pair by x, and emit `[spt1, spt2, spt3, spt4]`
= [top-left, top-right, bottom-right, bottom-left]. -/
def canon (l : List Pt) : List Pt :=
  let s := sortByKey (fun p => p.2) l
  let top := sortByKey (fun p => p.1) (s.take 2)
  let bot := sortByKey (fun p => p.1) (s.drop 2)
  top ++ bot.reverse

/-- State of `PerspectiveRectButton`: the four corner slots (a slot is
`none` before being defined, mirroring Python `None`) and the index of the
corner currently being defined. -/
structure PRState where
  corners : List (Option Pt)
  currentDefCorner : ℤ
deriving DecidableEq

/-- Fresh definition pass: all four slots empty, cursor on slot 0, as after
clicking the perspective-rectangle button on an unconfigured widget. -/
def prInit : PRState := { corners := [none, none, none, none], currentDefCorner := 0 }

/-- Embedding of `PerspectiveRectButton.setCorner` (lines 296-311): store the
point in the active slot, advance the cursor, and once the cursor passes
slot 3 reset it and replace the corner list by its canonicalization. -/
def setCorner (s : PRState) (p : Pt) : PRState :=
  let cs := s.corners.set s.currentDefCorner.toNat (some p)
  let idx := s.currentDefCorner + 1
  if idx > 3 then
    { corners := (canon cs.reduceOption).map some, currentDefCorner := 0 }
  else
    { corners := cs, currentDefCorner := idx }

/-- Feeding four points one at a time through `setCorner`, starting a fresh
definition pass. -/
def setCorner4 (p1 p2 p3 p4 : Pt) : PRState :=
  setCorner (setCorner (setCorner (setCorner prInit p1) p2) p3) p4

/-- The strict top/bottom separation condition on four points: after the
stable sort by y, the second y value is strictly smaller than the third, so
the split into a top pair and a bottom pair is unambiguous. -/
def ySepB (l : List Pt) : Bool :=
  match (sortByKey (fun p => p.2) l).map (fun p => p.2) with
  | [_, t2, t3, _] => decide (t2 < t3)
  | _ => false

/-- Proposition form of `ySepB`. -/
def ySep (l : List Pt) : Prop := ySepB l = true

instance (l : List Pt) : Decidable (ySep l) := by
  unfold ySep; infer_instance

/-- A 3x3 projective matrix with rational entries, the embedding of the
`float` matrices returned by `cv2.getPerspectiveTransform` (row-major
fields `m00 .. m22`). -/
structure H33 where
  m00 : ℚ
  m01 : ℚ
  m02 : ℚ
  m10 : ℚ
  m11 : ℚ
  m12 : ℚ
  m20 : ℚ
  m21 : ℚ
  m22 : ℚ
deriving DecidableEq

/-- The homogeneous w component of a transformed point: the third row of the
matrix applied to (x, y, 1). -/
def applyW (M : H33) (p : ℚ × ℚ) : ℚ := M.m20 * p.1 + M.m21 * p.2 + M.m22

/-- Projective application of a 3x3 matrix to a point, the embedding of
`cv2.perspectiveTransform` on a single point: homogeneous multiply, then
divide x and y by w.  (Division by a zero w yields 0 in `ℚ`, matching
OpenCV, which multiplies by 0 instead of 1/w when w = 0.) -/
def applyH (M : H33) (p : ℚ × ℚ) : ℚ × ℚ :=
  ((M.m00 * p.1 + M.m01 * p.2 + M.m02) / applyW M p,
   (M.m10 * p.1 + M.m11 * p.2 + M.m12) / applyW M p)

/-- The homogeneous triple obtained by multiplying the matrix with (x, y, 1).
Defined separately, following the spec wording for `transformPoint`
("homogeneous-multiply, then divide x and y by the homogeneous w
component"). -/
def homogMul (M : H33) (p : ℚ × ℚ) : ℚ × ℚ × ℚ :=
  (M.m00 * p.1 + M.m01 * p.2 + M.m02,
   M.m10 * p.1 + M.m11 * p.2 + M.m12,
   M.m20 * p.1 + M.m21 * p.2 + M.m22)

/-- Pure projective application as worded in the spec: homogeneous multiply
by the 3x3 matrix, then divide the x and y components by w, with no offset. -/
def specProjective (M : H33) (p : ℚ × ℚ) : ℚ × ℚ :=
  ((homogMul M p).1 / (homogMul M p).2.2, (homogMul M p).2.1 / (homogMul M p).2.2)

/-- One point correspondence constraint of the 8-equation linear system
solved by `cv2.getPerspectiveTransform`: p must map onto q projectively,
written without division. -/
def homoEq (M : H33) (p q : ℚ × ℚ) : Prop :=
  M.m00 * p.1 + M.m01 * p.2 + M.m02 = q.1 * (M.m20 * p.1 + M.m21 * p.2 + M.m22) ∧
  M.m10 * p.1 + M.m11 * p.2 + M.m12 = q.2 * (M.m20 * p.1 + M.m21 * p.2 + M.m22)

instance (M : H33) (p q : ℚ × ℚ) : Decidable (homoEq M p q) := by
  unfold homoEq; infer_instance

/-- M is the normalized (m22 = 1) homography mapping the source points onto
the target points: exactly the constraint system that
`cv2.getPerspectiveTransform` solves from 4 point correspondences. -/
def IsHomographyFor (M : H33) (src tgt : List (ℚ × ℚ)) : Prop :=
  M.m22 = 1 ∧ src.length = tgt.length ∧ ∀ pq ∈ src.zip tgt, homoEq M pq.1 pq.2

instance (M : H33) (src tgt : List (ℚ × ℚ)) : Decidable (IsHomographyFor M src tgt) := by
  unfold IsHomographyFor; infer_instance

/-- Integer bounding rectangle (x, y, width, height). -/
structure BRect where
  x : ℤ
  y : ℤ
  w : ℤ
  h : ℤ
deriving DecidableEq

/-- Minimum of a list of rationals (0 for the empty list; only ever applied
to the four transformed image corners). -/
def qmin : List ℚ → ℚ
  | [] => 0
  | x :: xs => xs.foldl min x

/-- Maximum of a list of rationals (0 for the empty list). -/
def qmax : List ℚ → ℚ
  | [] => 0
  | x :: xs => xs.foldl max x

/-- Modelled from the spec: `cv2.boundingRect` is external OpenCV code, and
the spec describes the bounding box as "the integer-rounded axis-aligned box
enclosing the four resulting points (min/max of x and y, width/height as
max-min)".  We take the floor of the minima and the ceiling of the maxima so
that the box encloses the points. -/
def boundingRectQ (pts : List (ℚ × ℚ)) : BRect :=
  let xs := pts.map (fun p => p.1)
  let ys := pts.map (fun p => p.2)
  let bx := ⌊qmin xs⌋
  let by_ := ⌊qmin ys⌋
  { x := bx, y := by_, w := ⌈qmax xs⌉ - bx, h := ⌈qmax ys⌉ - by_ }

/-- Python `int()` applied to a float: truncation toward zero. -/
def pytrunc (q : ℚ) : ℤ := if 0 ≤ q then ⌊q⌋ else ⌈q⌉

/-- The zoom factor of `getTransform` line 626: `zoom = dX2 / dX`, image
width divided by the X scale. -/
def zoomOf (sx : ℚ) (imgW : ℕ) : ℚ := (imgW : ℚ) / sx

/-- Rectified target width, line 627: `dX = int(dX * self.zoom)`. -/
def targetW (sx : ℚ) (imgW : ℕ) : ℤ := pytrunc (sx * zoomOf sx imgW)

/-- Rectified target height, line 628: `dY = int(dY * self.zoom)`. -/
def targetH (sy sx : ℚ) (imgW : ℕ) : ℤ := pytrunc (sy * zoomOf sx imgW)

/-- Shift a list of points by minus the components of b, as in line 639 where
the nominal rectangle corners are shifted by (-boundingRect.x, -boundingRect.y). -/
def shiftPts (b : ℚ × ℚ) (pts : List (ℚ × ℚ)) : List (ℚ × ℚ) :=
  pts.map (fun q => (q.1 - b.1, q.2 - b.2))

/-- Cast an integer point to a rational point (the `np.float32` conversions). -/
def castPt (p : Pt) : ℚ × ℚ := ((p.1 : ℚ), (p.2 : ℚ))

/-- The mutable state of the `OrthoView` widget relevant to the
rectification core.  `perspectiveTransform1`, `perspectiveTransform2`,
`boundingRect` and `targetRect` are `Option`s: `none` models the Python
attribute not existing yet (it is only created by an assignment inside
`getTransform`). -/
structure OState where
  corners : List (Option Pt)
  scaleX : ℚ
  scaleY : ℚ
  beamPos : Pt
  zoom : ℚ
  perspectiveTransform1 : Option H33
  perspectiveTransform2 : Option H33
  boundingRect : Option BRect
  targetRect : Option (List (ℚ × ℚ))
  beamPosRectified : ℚ × ℚ
deriving DecidableEq

/-- Embedding of `OrthoView.canTransform` (lines 619-621):
`None not in corners and scaleX > 0 and scaleY > 0`. -/
def canTransform (s : OState) : Bool :=
  s.corners.all (fun c => c.isSome) && decide (s.scaleX > 0) && decide (s.scaleY > 0)

/-- Embedding of `OrthoView.transformPoint` (lines 644-648): apply
`perspectiveTransform1` projectively to the point, then subtract the
bounding-rectangle origin.  `none` models the `AttributeError` raised when
`getTransform` has never run (the attributes do not exist). -/
def transformPoint (s : OState) (p : ℚ × ℚ) : Option (ℚ × ℚ) :=
  match s.perspectiveTransform1, s.boundingRect with
  | some M, some br => some ((applyH M p).1 - (br.x : ℚ), (applyH M p).2 - (br.y : ℚ))
  | _, _ => none

/-- Embedding of `OrthoView.getTransform` (lines 623-642), parametric in the
4-point solver (`cv2.getPerspectiveTransform` is external code; a `none`
result models the solver raising).  The assignments happen in source order:
zoom, perspectiveTransform1, boundingRect, beamPosRectified, targetRect,
perspectiveTransform2.  On a solver failure the function returns the state
mutated so far together with `false`, mirroring a Python exception escaping
after the earlier assignments have already happened. -/
def getTransform (solve : List (ℚ × ℚ) → List (ℚ × ℚ) → Option H33)
    (s : OState) (imgW imgH : ℕ) : OState × Bool :=
  let zm := zoomOf s.scaleX imgW
  let dX := targetW s.scaleX imgW
  let dY := targetH s.scaleY s.scaleX imgW
  let pIn := s.corners.reduceOption.map castPt
  let pOut : List (ℚ × ℚ) := [(0, 0), ((dX : ℚ), 0), ((dX : ℚ), (dY : ℚ)), (0, (dY : ℚ))]
  let s1 := { s with zoom := zm }
  match solve pIn pOut with
  | none => (s1, false)
  | some T1 =>
    let s2 := { s1 with perspectiveTransform1 := some T1 }
    let inCorners : List (ℚ × ℚ) := [(0, 0), ((imgW : ℚ), 0), ((imgW : ℚ), (imgH : ℚ)), (0, (imgH : ℚ))]
    let br := boundingRectQ (inCorners.map (applyH T1))
    let s3 := { s2 with boundingRect := some br }
    let bp := applyH T1 (castPt s.beamPos)
    let s4 := { s3 with beamPosRectified := (bp.1 - (br.x : ℚ), bp.2 - (br.y : ℚ)) }
    let tgt := shiftPts ((br.x : ℚ), (br.y : ℚ)) pOut
    let s5 := { s4 with targetRect := some tgt }
    match solve pIn tgt with
    | none => (s5, false)
    | some T2 => ({ s5 with perspectiveTransform2 := some T2 }, true)

/-- Embedding of the plate-coordinate reporting in `MyToolBar.set_message`
(lines 117-129): in perspective mode (`straightChecked = false`) the queried
pixel is mapped through `transformPoint` and offset by `beamPosRectified`,
all divided by zoom; in rectified mode the canvas point is used directly.
`none` models the cases where no plate coordinates are reported. -/
def plateCoords (s : OState) (straightChecked : Bool) (q : ℚ × ℚ) : Option (ℚ × ℚ) :=
  if canTransform s then
    if straightChecked = false then
      match transformPoint s q with
      | some pp => some ((pp.1 - s.beamPosRectified.1) / s.zoom, (pp.2 - s.beamPosRectified.2) / s.zoom)
      | none => none
    else
      some ((q.1 - s.beamPosRectified.1) / s.zoom, (q.2 - s.beamPosRectified.2) / s.zoom)
  else none

/-- Embedding of the displacement produced by `MyMplCanvas.moveToBeam`
(lines 232-259): the vector that is printed as `(-x0, y0)` and commanded to
the motors as `curX - x0`, `curY + y0` -- i.e. the displacement (-x0, y0). -/
def moveToBeamDisp (s : OState) (straightChecked : Bool) (click : ℚ × ℚ) : Option (ℚ × ℚ) :=
  if straightChecked = false then
    match transformPoint s click with
    | some pp => some (-((pp.1 - s.beamPosRectified.1) / s.zoom), (pp.2 - s.beamPosRectified.2) / s.zoom)
    | none => none
  else
    some (-((click.1 - s.beamPosRectified.1) / s.zoom), (click.2 - s.beamPosRectified.2) / s.zoom)

/-- The spec-side displacement: (mapped clicked point minus mapped beam
point) divided by zoom, with the X component negated and the Y component
unchanged. -/
def specDisp (mc mb : ℚ × ℚ) (zm : ℚ) : ℚ × ℚ :=
  (-((mc.1 - mb.1) / zm), (mc.2 - mb.2) / zm)


/-- The stable insertion places p after every element with key at most its
own, so the result is a permutation of p prepended. -/
theorem insertLe_perm (key : Pt → ℤ) (p : Pt) (l : List Pt) :
    List.Perm (insertLe key p l) (p :: l) := by
  induction l with
  | nil => simp [insertLe]
  | cons q qs ih =>
    simp only [insertLe]
    split
    · exact (ih.cons q).trans (List.Perm.swap p q qs)
    · exact List.Perm.refl _

theorem foldl_insertLe_perm (key : Pt → ℤ) (l : List Pt) :
    ∀ acc : List Pt,
      List.Perm (l.foldl (fun acc p => insertLe key p acc) acc) (l ++ acc) := by
  induction l with
  | nil => intro acc; simp
  | cons p ps ih =>
    intro acc
    simp only [List.foldl_cons, List.cons_append]
    refine ((ih (insertLe key p acc)).trans ?_)
    refine (List.Perm.append_left ps (insertLe_perm key p acc)).trans ?_
    exact List.perm_middle

/-- The stable sort permutes its input. -/
theorem sortByKey_perm (key : Pt → ℤ) (l : List Pt) :
    List.Perm (sortByKey key l) l := by
  have h := foldl_insertLe_perm key l []
  simpa [sortByKey] using h

/-- Sortedness of a list with respect to the key. -/
def KeySorted (key : Pt → ℤ) (l : List Pt) : Prop :=
  l.Pairwise (fun a b => key a ≤ key b)

theorem insertLe_sorted (key : Pt → ℤ) (p : Pt) {l : List Pt}
    (h : KeySorted key l) : KeySorted key (insertLe key p l) := by
  induction l with
  | nil => simp [insertLe, KeySorted]
  | cons q qs ih =>
    rcases List.pairwise_cons.1 h with ⟨hq, hqs⟩
    simp only [insertLe]
    split
    · rename_i hle
      refine List.pairwise_cons.2 ⟨?_, ih hqs⟩
      intro b hb
      rcases List.mem_cons.1 ((insertLe_perm key p qs).mem_iff.1 hb) with rfl | hbqs
      · exact hle
      · exact hq _ hbqs
    · rename_i hgt
      have hple : key p ≤ key q := le_of_not_le hgt
      refine List.pairwise_cons.2 ⟨?_, h⟩
      intro b hb
      rcases List.mem_cons.1 hb with rfl | hbqs
      · exact hple
      · exact le_trans hple (hq _ hbqs)

theorem foldl_insertLe_sorted (key : Pt → ℤ) (l : List Pt) :
    ∀ acc : List Pt, KeySorted key acc →
      KeySorted key (l.foldl (fun acc p => insertLe key p acc) acc) := by
  induction l with
  | nil => intro acc h; simpa using h
  | cons p ps ih =>
    intro acc h
    exact ih _ (insertLe_sorted key p h)

/-- The stable sort sorts. -/
theorem sortByKey_sorted (key : Pt → ℤ) (l : List Pt) :
    KeySorted key (sortByKey key l) :=
  foldl_insertLe_sorted key l [] (by simp [KeySorted])

theorem perm_two {α : Type} {a b c d : α} (h : List.Perm [a, b] [c, d]) :
    (a = c ∧ b = d) ∨ (a = d ∧ b = c) := by
  have ha : a ∈ [c, d] := h.mem_iff.1 (by simp)
  rcases List.mem_cons.1 ha with rfl | ha2
  · left
    have h2 := h.cons_inv
    exact ⟨rfl, List.singleton_perm_singleton.1 h2⟩
  · have had : a = d := by simpa using ha2
    subst had
    right
    have h2 : List.Perm [a, b] [a, c] := h.trans (List.Perm.swap a c [])
    exact ⟨rfl, List.singleton_perm_singleton.1 h2.cons_inv⟩

theorem sortByKey_pair (key : Pt → ℤ) (p q : Pt) :
    sortByKey key [p, q] = if key p ≤ key q then [p, q] else [q, p] := by
  simp [sortByKey, insertLe]

/-- Two x-sorts of the same two points, each pair enumerated in y-sorted
order, agree: ties in x are broken by the stability of the preceding y-sort. -/
theorem xsort_pair_eq {p q u v : Pt} (hperm : List.Perm [p, q] [u, v])
    (hy : p.2 ≤ q.2) (hy2 : u.2 ≤ v.2) :
    sortByKey (fun r => r.1) [p, q] = sortByKey (fun r => r.1) [u, v] := by
  rcases perm_two hperm with ⟨rfl, rfl⟩ | ⟨h1, h2⟩
  · rfl
  · subst h1; subst h2
    have hyy : p.2 = q.2 := le_antisymm hy hy2
    rw [sortByKey_pair, sortByKey_pair]
    rcases lt_trichotomy p.1 q.1 with hx | hx | hx
    · rw [if_pos (le_of_lt hx), if_neg (not_le.2 hx)]
    · have hpq : p = q := Prod.ext hx hyy
      subst hpq
      rfl
    · rw [if_neg (not_le.2 hx), if_pos (le_of_lt hx)]

theorem list_len4 {α : Type} {l : List α} (h : l.length = 4) :
    ∃ a b c d, l = [a, b, c, d] := by
  rcases l with _ | ⟨a, _ | ⟨b, _ | ⟨c, _ | ⟨d, _ | e⟩⟩⟩⟩ <;> simp_all

/-- Under the strict top/bottom separation condition, canonicalization is
invariant under permutation of the input list. -/
theorem canon_perm_eq {l m : List Pt} (hlen : l.length = 4) (hsep : ySep l)
    (hperm : List.Perm m l) : canon m = canon l := by
  have hsl := sortByKey_perm (fun p => p.2) l
  have hsm := sortByKey_perm (fun p => p.2) m
  have hperm2 : List.Perm (sortByKey (fun p => p.2) m) (sortByKey (fun p => p.2) l) :=
    hsm.trans (hperm.trans hsl.symm)
  have hsortl := sortByKey_sorted (fun p => p.2) l
  have hsortm := sortByKey_sorted (fun p => p.2) m
  obtain ⟨a1, a2, a3, a4, hseq⟩ :=
    list_len4 (by rw [hsl.length_eq]; exact hlen)
  obtain ⟨b1, b2, b3, b4, hteq⟩ :=
    list_len4 (by rw [hperm2.length_eq, hsl.length_eq]; exact hlen)
  rw [hseq] at hsortl hperm2
  rw [hteq] at hsortm hperm2
  unfold KeySorted at hsortl hsortm
  simp only [List.pairwise_cons, List.mem_cons, List.mem_singleton,
    List.not_mem_nil, forall_eq_or_imp, forall_eq, List.Pairwise.nil,
    and_true, IsEmpty.forall_iff, implies_true, true_and] at hsortl hsortm
  obtain ⟨⟨h12, h13, h14⟩, ⟨h23, h24⟩, h34⟩ := hsortl
  obtain ⟨⟨g12, g13, g14⟩, ⟨g23, g24⟩, g34⟩ := hsortm
  -- the y values of the two sorted lists coincide
  have sb : List.Sorted (fun x y : ℤ => x ≤ y)
      (List.map (fun p : Pt => p.2) [b1, b2, b3, b4]) := by
    simp [List.sorted_cons]
    omega
  have sa : List.Sorted (fun x y : ℤ => x ≤ y)
      (List.map (fun p : Pt => p.2) [a1, a2, a3, a4]) := by
    simp [List.sorted_cons]
    omega
  have hmapeq : List.map (fun p : Pt => p.2) [b1, b2, b3, b4]
      = List.map (fun p : Pt => p.2) [a1, a2, a3, a4] :=
    List.eq_of_perm_of_sorted (hperm2.map (fun p : Pt => p.2)) sb sa
  simp only [List.map_cons, List.map_nil, List.cons.injEq, and_true] at hmapeq
  obtain ⟨e1, e2, e3, e4⟩ := hmapeq
  -- the separation fact in terms of the sorted list of l
  have hsep2 : a2.2 < a3.2 := by
    unfold ySep ySepB at hsep
    rw [hseq] at hsep
    simpa using hsep
  -- top pairs are permutations of each other, via filtering
  have hfl : List.filter (fun r : Pt => decide (r.2 < a3.2)) [a1, a2, a3, a4]
      = [a1, a2] := by
    simp [List.filter_cons, lt_of_le_of_lt h12 hsep2, hsep2, lt_irrefl,
      not_lt.2 h34]
  have hfm : List.filter (fun r : Pt => decide (r.2 < a3.2)) [b1, b2, b3, b4]
      = [b1, b2] := by
    have k1 : b1.2 < a3.2 := by rw [e1]; exact lt_of_le_of_lt h12 hsep2
    have k2 : b2.2 < a3.2 := by rw [e2]; exact hsep2
    have k3 : ¬ b3.2 < a3.2 := by rw [e3]; exact lt_irrefl _
    have k4 : ¬ b4.2 < a3.2 := by rw [e4]; exact not_lt.2 h34
    simp [List.filter_cons, k1, k2, k3, k4]
  have htop : List.Perm [b1, b2] [a1, a2] := by
    rw [← hfl, ← hfm]
    exact hperm2.filter _
  -- bottom pairs likewise
  have hgl : List.filter (fun r : Pt => decide (a3.2 ≤ r.2)) [a1, a2, a3, a4]
      = [a3, a4] := by
    simp [List.filter_cons, not_le.2 (lt_of_le_of_lt h12 hsep2), not_le.2 hsep2,
      le_refl, h34]
  have hgm : List.filter (fun r : Pt => decide (a3.2 ≤ r.2)) [b1, b2, b3, b4]
      = [b3, b4] := by
    have k1 : ¬ a3.2 ≤ b1.2 := by rw [e1]; exact not_le.2 (lt_of_le_of_lt h12 hsep2)
    have k2 : ¬ a3.2 ≤ b2.2 := by rw [e2]; exact not_le.2 hsep2
    have k3 : a3.2 ≤ b3.2 := by rw [e3]
    have k4 : a3.2 ≤ b4.2 := by rw [e4]; exact h34
    simp [List.filter_cons, k1, k2, k3, k4]
  have hbot : List.Perm [b3, b4] [a3, a4] := by
    rw [← hgl, ← hgm]
    exact hperm2.filter _
  -- assemble
  have etop := xsort_pair_eq htop g12 h12
  have ebot := xsort_pair_eq hbot g34 h34
  simp only [canon, hseq, hteq]
  simp only [List.take, List.drop]
  rw [etop, ebot]

/-- Canonicalization always produces a permutation of its 4-element input,
shaped [top-left, top-right, bottom-right, bottom-left]: the first two
entries have the two smallest y values, the first pair is ordered by x, and
the last pair is ordered by x in reverse. -/
theorem canon_shape {l : List Pt} (hlen : l.length = 4) :
    ∃ q1 q2 q3 q4, canon l = [q1, q2, q3, q4] ∧
      List.Perm [q1, q2, q3, q4] l ∧
      q1.2 ≤ q3.2 ∧ q1.2 ≤ q4.2 ∧ q2.2 ≤ q3.2 ∧ q2.2 ≤ q4.2 ∧
      q1.1 ≤ q2.1 ∧ q4.1 ≤ q3.1 := by
  have hsl := sortByKey_perm (fun p => p.2) l
  have hsortl := sortByKey_sorted (fun p => p.2) l
  obtain ⟨a1, a2, a3, a4, hseq⟩ := list_len4 (by rw [hsl.length_eq]; exact hlen)
  rw [hseq] at hsortl hsl
  unfold KeySorted at hsortl
  simp only [List.pairwise_cons, List.mem_cons, List.mem_singleton,
    List.not_mem_nil, forall_eq_or_imp, forall_eq, List.Pairwise.nil,
    and_true, IsEmpty.forall_iff, implies_true, true_and] at hsortl
  obtain ⟨⟨h12, h13, h14⟩, ⟨h23, h24⟩, h34⟩ := hsortl
  have hc : canon l = sortByKey (fun r => r.1) [a1, a2]
      ++ (sortByKey (fun r => r.1) [a3, a4]).reverse := by
    simp only [canon, hseq]
    rfl
  rw [sortByKey_pair, sortByKey_pair] at hc
  by_cases hx1 : a1.1 ≤ a2.1 <;> by_cases hx2 : a3.1 ≤ a4.1
  · rw [if_pos hx1, if_pos hx2] at hc
    refine ⟨a1, a2, a4, a3, by simpa using hc, ?_, h14, h13, h24, h23, hx1, hx2⟩
    exact (((List.Perm.swap a3 a4 []).cons a2).cons a1).trans hsl
  · rw [if_pos hx1, if_neg hx2] at hc
    refine ⟨a1, a2, a3, a4, by simpa using hc, hsl, h13, h14, h23, h24, hx1,
      le_of_not_le hx2⟩
  · rw [if_neg hx1, if_pos hx2] at hc
    refine ⟨a2, a1, a4, a3, by simpa using hc, ?_, h24, h23, h14, h13,
      le_of_not_le hx1, hx2⟩
    exact ((List.Perm.swap a1 a2 [a4, a3]).trans
      (((List.Perm.swap a3 a4 []).cons a2).cons a1)).trans hsl
  · rw [if_neg hx1, if_neg hx2] at hc
    refine ⟨a2, a1, a3, a4, by simpa using hc, ?_, h23, h24, h13, h14,
      le_of_not_le hx1, le_of_not_le hx2⟩
    exact (List.Perm.swap a1 a2 [a3, a4]).trans hsl

/-- Storing the fourth point replaces the slot list by the canonicalized
list of the four supplied points. -/
theorem setCorner4_corners (p1 p2 p3 p4 : Pt) :
    (setCorner4 p1 p2 p3 p4).corners = (canon [p1, p2, p3, p4]).map some := rfl

/-- C1 (amended): if the four supplied points have their second-smallest y
strictly below their third-smallest y (so the top/bottom split is
unambiguous), then storing the fourth point via setCorner re-sorts the list
into canonical order [top-left, top-right, bottom-right, bottom-left] - the
two stored points with the smallest y values come first, each pair ordered
by x (tie-broken by y through the stable sort) - and every permutation of
the same four points produces the identical canonical list. -/
theorem c1_canonical_order (p1 p2 p3 p4 : Pt)
    (hsep : ySep [p1, p2, p3, p4]) :
    (setCorner4 p1 p2 p3 p4).corners = (canon [p1, p2, p3, p4]).map some ∧
    (∃ q1 q2 q3 q4, canon [p1, p2, p3, p4] = [q1, q2, q3, q4] ∧
      List.Perm [q1, q2, q3, q4] [p1, p2, p3, p4] ∧
      q1.2 ≤ q3.2 ∧ q1.2 ≤ q4.2 ∧ q2.2 ≤ q3.2 ∧ q2.2 ≤ q4.2 ∧
      q1.1 ≤ q2.1 ∧ q4.1 ≤ q3.1) ∧
    (∀ r1 r2 r3 r4 : Pt, List.Perm [r1, r2, r3, r4] [p1, p2, p3, p4] →
      (setCorner4 r1 r2 r3 r4).corners = (setCorner4 p1 p2 p3 p4).corners) := by
  refine ⟨setCorner4_corners p1 p2 p3 p4, ?_, ?_⟩
  · obtain ⟨q1, q2, q3, q4, hq⟩ := canon_shape (l := [p1, p2, p3, p4]) (by simp)
    exact ⟨q1, q2, q3, q4, hq⟩
  · intro r1 r2 r3 r4 hperm
    rw [setCorner4_corners, setCorner4_corners,
      canon_perm_eq (by simp) hsep hperm]

/-- C1 counterexample: without the separation condition the claim is false.
The same four points fed in two different orders produce different stored
corner lists (three points share y = 0, and the stable sort splits them by
input order). -/
theorem c1_counterexample :
    List.Perm [((1 : ℤ), (0 : ℤ)), (2, 0), (0, 0), (3, 1)]
      [((0 : ℤ), (0 : ℤ)), (1, 0), (2, 0), (3, 1)] ∧
    (setCorner4 (1, 0) (2, 0) (0, 0) (3, 1)).corners
      ≠ (setCorner4 (0, 0) (1, 0) (2, 0) (3, 1)).corners := by
  constructor
  · decide
  · decide

/-- Witness for C1 at the Scenario A corners. -/
theorem c1_canonical_order_witness :
    ySep [((10 : ℤ), (10 : ℤ)), (110, 10), (110, 60), (10, 60)] ∧
    ((setCorner4 (10, 10) (110, 10) (110, 60) (10, 60)).corners
        = (canon [((10 : ℤ), (10 : ℤ)), (110, 10), (110, 60), (10, 60)]).map some ∧
      (∃ q1 q2 q3 q4,
        canon [((10 : ℤ), (10 : ℤ)), (110, 10), (110, 60), (10, 60)] = [q1, q2, q3, q4] ∧
        List.Perm [q1, q2, q3, q4] [((10 : ℤ), (10 : ℤ)), (110, 10), (110, 60), (10, 60)] ∧
        q1.2 ≤ q3.2 ∧ q1.2 ≤ q4.2 ∧ q2.2 ≤ q3.2 ∧ q2.2 ≤ q4.2 ∧
        q1.1 ≤ q2.1 ∧ q4.1 ≤ q3.1) ∧
      (∀ r1 r2 r3 r4 : Pt,
        List.Perm [r1, r2, r3, r4] [((10 : ℤ), (10 : ℤ)), (110, 10), (110, 60), (10, 60)] →
        (setCorner4 r1 r2 r3 r4).corners
          = (setCorner4 (10, 10) (110, 10) (110, 60) (10, 60)).corners)) :=
  ⟨by decide, c1_canonical_order (10, 10) (110, 10) (110, 60) (10, 60) (by decide)⟩

/-- A concrete widget state whose corners and scales are fully configured
(Scenario A values) but on which getTransform has never run: the transform
attributes do not exist yet. -/
def sReady : OState :=
  { corners := [some (10, 10), some (110, 10), some (110, 60), some (10, 60)]
    scaleX := 50
    scaleY := 25
    beamPos := (60, 35)
    zoom := 0
    perspectiveTransform1 := none
    perspectiveTransform2 := none
    boundingRect := none
    targetRect := none
    beamPosRectified := (0, 0) }

/-- C5: canTransform is true iff each of the four corner slots holds a point
and both scales are strictly positive; it reads no other state, being a
function of exactly these three fields. -/
theorem c5_canTransform_iff (s : OState) (c0 c1 c2 c3 : Option Pt)
    (h : s.corners = [c0, c1, c2, c3]) :
    canTransform s = true ↔
      (c0.isSome = true ∧ c1.isSome = true ∧ c2.isSome = true ∧ c3.isSome = true ∧
        0 < s.scaleX ∧ 0 < s.scaleY) := by
  unfold canTransform
  rw [h]
  simp [and_assoc]

/-- Witness for C5 on the concrete configured state. -/
theorem c5_canTransform_iff_witness :
    sReady.corners = [some (10, 10), some (110, 10), some (110, 60), some (10, 60)] ∧
    (canTransform sReady = true ↔
      ((some ((10 : ℤ), (10 : ℤ))).isSome = true ∧
        (some ((110 : ℤ), (10 : ℤ))).isSome = true ∧
        (some ((110 : ℤ), (60 : ℤ))).isSome = true ∧
        (some ((10 : ℤ), (60 : ℤ))).isSome = true ∧
        0 < sReady.scaleX ∧ 0 < sReady.scaleY)) :=
  ⟨rfl, c5_canTransform_iff sReady _ _ _ _ rfl⟩

/-- C10: whenever getTransform has never completed, the forward-transform
attribute does not exist and transformPoint returns no result; yet there is
a state of exactly that kind in which canTransform already answers true, so
canTransform being true is not a sufficient precondition for transformPoint. -/
theorem c10_transformPoint_undefined :
    (∀ (s : OState) (p : ℚ × ℚ), s.perspectiveTransform1 = none →
      transformPoint s p = none) ∧
    (canTransform sReady = true ∧ sReady.perspectiveTransform1 = none ∧
      ∀ p : ℚ × ℚ, transformPoint sReady p = none) := by
  refine ⟨?_, ?_, rfl, ?_⟩
  · intro s p h
    unfold transformPoint
    rw [h]
  · norm_num [canTransform, sReady]
  · intro p; rfl

/-- Witness for C10 applying the universal part at a concrete state. -/
theorem c10_transformPoint_undefined_witness :
    sReady.perspectiveTransform1 = none ∧ transformPoint sReady (0, 0) = none :=
  ⟨rfl, c10_transformPoint_undefined.1 sReady (0, 0) rfl⟩

/-- The Scenario A forward transform: the affine map taking the corner
rectangle (10,10)-(110,60) onto (0,0)-(640,320), scale factor 32/5. -/
def M1c : H33 := ⟨32/5, 0, -64, 0, 32/5, -64, 0, 0, 1⟩

/-- The Scenario A display transform: the forward transform followed by the
translation by (64, 64). -/
def M2c : H33 := ⟨32/5, 0, 0, 0, 32/5, 0, 0, 0, 1⟩

/-- Scenario A nominal output rectangle corners. -/
def pOutA : List (ℚ × ℚ) := [(0, 0), (640, 0), (640, 320), (0, 320)]

/-- Scenario A target rectangle corners, shifted into the bounding box. -/
def tgtA : List (ℚ × ℚ) := [(64, 64), (704, 64), (704, 384), (64, 384)]

/-- A solver stub returning the two Scenario A transforms, modelling what
`cv2.getPerspectiveTransform` returns for these correspondences. -/
def stubA : List (ℚ × ℚ) → List (ℚ × ℚ) → Option H33 :=
  fun _ o => if o = pOutA then some M1c else if o = tgtA then some M2c else none

/-- The Scenario A state after a successful getTransform: forward transform,
display transform, bounding box (-64, -64, 4096, 3072) for the 640x480
image, and mapped beam position (384, 224). -/
def sA : OState :=
  { corners := [some (10, 10), some (110, 10), some (110, 60), some (10, 60)]
    scaleX := 50
    scaleY := 25
    beamPos := (60, 35)
    zoom := 64/5
    perspectiveTransform1 := some M1c
    perspectiveTransform2 := some M2c
    boundingRect := some ⟨-64, -64, 4096, 3072⟩
    targetRect := some tgtA
    beamPosRectified := (384, 224) }

/-- Evaluation fact: getTransform on the ready state with the Scenario A
solver stub succeeds and produces exactly the state sA. -/
theorem getTransform_sReady : getTransform stubA sReady 640 480 = (sA, true) := by
  simp only [getTransform, sReady, stubA]
  norm_num [zoomOf, targetW, targetH, pytrunc, castPt, pOutA, tgtA,
    boundingRectQ, qmin, qmax, applyH, applyW, shiftPts, M1c, M2c, sA]

/-- C3 counterexample: transformPoint is not the pure projective
application.  At the Scenario A state, the corner (10, 10) maps projectively
to (0, 0), but transformPoint answers (64, 64): the bounding-box origin is
subtracted. -/
theorem c3_counterexample :
    transformPoint sA (10, 10) = some (64, 64) ∧
    specProjective M1c (10, 10) = (0, 0) ∧
    transformPoint sA (10, 10) ≠ some (specProjective M1c (10, 10)) := by
  refine ⟨?_, ?_, ?_⟩
  · norm_num [transformPoint, sA, applyH, applyW, M1c]
  · norm_num [specProjective, homogMul, M1c]
  · norm_num [transformPoint, sA, applyH, applyW, specProjective, homogMul, M1c]

/-- C3 (amended): transformPoint equals the pure projective application of
the forward transform (homogeneous multiply, then divide x and y by the
homogeneous w component) followed by subtraction of the bounding-box origin
(boundingRect.x, boundingRect.y). -/
theorem c3_transformPoint_offset (s : OState) (M : H33) (br : BRect)
    (hT : s.perspectiveTransform1 = some M) (hbr : s.boundingRect = some br)
    (p : ℚ × ℚ) :
    transformPoint s p
      = some ((specProjective M p).1 - (br.x : ℚ), (specProjective M p).2 - (br.y : ℚ)) := by
  unfold transformPoint
  rw [hT, hbr]
  rfl

/-- Witness for the amended C3 at the Scenario A state. -/
theorem c3_transformPoint_offset_witness :
    sA.perspectiveTransform1 = some M1c ∧ sA.boundingRect = some ⟨-64, -64, 4096, 3072⟩ ∧
    transformPoint sA (10, 10)
      = some ((specProjective M1c (10, 10)).1 - ((-64 : ℤ) : ℚ),
          (specProjective M1c (10, 10)).2 - ((-64 : ℤ) : ℚ)) :=
  ⟨rfl, rfl, c3_transformPoint_offset sA M1c ⟨-64, -64, 4096, 3072⟩ rfl rfl (10, 10)⟩

/-- C4 counterexample: the target height is not obtained by rounding.  With
scales sx = 50, sy = 25.3 and image width 640, sy*zoom = 323.84; the code
truncates to 323 while rounding gives 324. -/
theorem c4_counterexample :
    targetH (253/10) 50 640 = 323 ∧ round ((253/10 : ℚ) * zoomOf 50 640) = 324 ∧
    targetH (253/10) 50 640 ≠ round ((253/10 : ℚ) * zoomOf 50 640) := by
  refine ⟨?_, ?_, ?_⟩
  · norm_num [targetH, zoomOf, pytrunc]
  · norm_num [zoomOf, round_eq]
  · norm_num [targetH, zoomOf, pytrunc, round_eq]

/-- C4 (amended): for positive scales, zoom = imageWidth / scaleX, the
target width is int-truncation of scaleX*zoom and equals the image width
exactly, and the target height is int-truncation (not rounding) of
scaleY*zoom; for sx = 50, sy = 25, W = 640 this gives zoom = 64/5 = 12.8,
targetWidth = 640 and targetHeight = 320. -/
theorem c4_zoom_target (sx sy : ℚ) (W : ℕ) (hx : 0 < sx) (hy : 0 < sy) :
    zoomOf sx W = (W : ℚ) / sx ∧
    targetW sx W = pytrunc (sx * zoomOf sx W) ∧
    targetW sx W = (W : ℤ) ∧
    targetH sy sx W = pytrunc (sy * zoomOf sx W) ∧
    zoomOf 50 640 = 64/5 ∧ targetW 50 640 = 640 ∧ targetH 25 50 640 = 320 := by
  refine ⟨rfl, rfl, ?_, rfl, by norm_num [zoomOf], ?_, ?_⟩
  · unfold targetW zoomOf pytrunc
    rw [mul_div_cancel₀ _ (ne_of_gt hx)]
    rw [if_pos (by positivity)]
    exact Int.floor_natCast W
  · norm_num [targetW, zoomOf, pytrunc]
  · norm_num [targetH, zoomOf, pytrunc]

/-- Witness for C4 at the Scenario A scales. -/
theorem c4_zoom_target_witness :
    (0 : ℚ) < 50 ∧ (0 : ℚ) < 25 ∧
    (zoomOf (50 : ℚ) 640 = ((640 : ℕ) : ℚ) / 50 ∧
      targetW (50 : ℚ) 640 = pytrunc (50 * zoomOf 50 640) ∧
      targetW (50 : ℚ) 640 = ((640 : ℕ) : ℤ) ∧
      targetH (25 : ℚ) 50 640 = pytrunc (25 * zoomOf 50 640) ∧
      zoomOf (50 : ℚ) 640 = 64/5 ∧ targetW (50 : ℚ) 640 = 640 ∧
      targetH (25 : ℚ) 50 640 = 320) :=
  ⟨by norm_num, by norm_num, c4_zoom_target 50 25 640 (by norm_num) (by norm_num)⟩

/-- A complete corner state whose corners are collinear in their first three
points: a degenerate rectangle that no homography can map onto the nominal
output rectangle. -/
def sDeg : OState :=
  { corners := [some (0, 0), some (10, 0), some (20, 0), some (5, 5)]
    scaleX := 50
    scaleY := 25
    beamPos := (60, 35)
    zoom := 0
    perspectiveTransform1 := none
    perspectiveTransform2 := none
    boundingRect := none
    targetRect := none
    beamPosRectified := (0, 0) }

/-- The degenerate source corners as rational points. -/
def pInDeg : List (ℚ × ℚ) := [(0, 0), (10, 0), (20, 0), (5, 5)]

/-- C2 refutation: the code contains no degeneracy detection.  The collinear
corner set passes canTransform (the only guard in front of getTransform);
no homography at all satisfies the 4-point constraint system that
cv2.getPerspectiveTransform is asked to solve, so the solver can only fail
or return garbage; and getTransform accepts whatever matrix the solver
returns, storing it and reporting success without any determinant or
condition check. -/
theorem c2_no_degeneracy_detection :
    canTransform sDeg = true ∧
    (¬ ∃ M : H33, IsHomographyFor M pInDeg pOutA) ∧
    (∀ M : H33,
      ((getTransform (fun _ _ => some M) sDeg 640 480).1.perspectiveTransform1 = some M ∧
        (getTransform (fun _ _ => some M) sDeg 640 480).2 = true)) := by
  refine ⟨by norm_num [canTransform, sDeg], ?_, ?_⟩
  · rintro ⟨M, h22, hlen, hall⟩
    have e1 := hall ((0, 0), (0, 0)) (by simp [pInDeg, pOutA])
    have e2 := hall ((10, 0), (640, 0)) (by simp [pInDeg, pOutA])
    have e3 := hall ((20, 0), (640, 320)) (by simp [pInDeg, pOutA])
    unfold homoEq at e1 e2 e3
    obtain ⟨e1x, e1y⟩ := e1
    obtain ⟨e2x, e2y⟩ := e2
    obtain ⟨e3x, e3y⟩ := e3
    rw [h22] at e1x e1y e2x e2y e3x e3y
    norm_num at e1x e1y e2x e2y e3x e3y
    linarith
  · intro M
    constructor <;> rfl

/-- C2 witness-style consequence: a garbage matrix (all entries zero) is
accepted and stored by getTransform on the degenerate state. -/
theorem c2_no_degeneracy_detection_witness :
    (getTransform (fun _ _ => some ⟨0, 0, 0, 0, 0, 0, 0, 0, 0⟩) sDeg 640 480).2 = true :=
  (c2_no_degeneracy_detection.2.2 ⟨0, 0, 0, 0, 0, 0, 0, 0, 0⟩).2

/-- A previously calibrated state with stale (deliberately marked) derived
fields, used to observe which fields a failing recompute overwrites. -/
def sStale : OState :=
  { corners := [some (10, 10), some (110, 10), some (110, 60), some (10, 60)]
    scaleX := 50
    scaleY := 25
    beamPos := (60, 35)
    zoom := 1
    perspectiveTransform1 := some ⟨1, 0, 0, 0, 1, 0, 0, 0, 1⟩
    perspectiveTransform2 := some ⟨1, 0, 0, 0, 1, 0, 0, 0, 1⟩
    boundingRect := some ⟨0, 0, 1, 1⟩
    targetRect := some [(0, 0), (1, 0), (1, 1), (0, 1)]
    beamPosRectified := (5, 5) }

/-- A solver that succeeds on the first (nominal-rectangle) call and fails
on the second (shifted-target) call, modelling
cv2.getPerspectiveTransform raising partway through getTransform. -/
def stubFail2 : List (ℚ × ℚ) → List (ℚ × ℚ) → Option H33 :=
  fun _ o => if o = pOutA then some M1c else none

/-- C9 refutation: a solver failure does not leave the previous transform
state untouched.  If the very first solver call fails, zoom has already
been overwritten; if the second call fails, the forward transform, bounding
box, mapped beam position and target rectangle have all been overwritten
while the display transform keeps its stale value - a partial overwrite in
both cases. -/
theorem c9_partial_overwrite :
    ((getTransform (fun _ _ => none) sStale 640 480).2 = false ∧
      (getTransform (fun _ _ => none) sStale 640 480).1.zoom = 64/5 ∧
      sStale.zoom = 1 ∧
      (getTransform (fun _ _ => none) sStale 640 480).1.perspectiveTransform1
        = sStale.perspectiveTransform1) ∧
    ((getTransform stubFail2 sStale 640 480).2 = false ∧
      (getTransform stubFail2 sStale 640 480).1.perspectiveTransform1 = some M1c ∧
      sStale.perspectiveTransform1 ≠ some M1c ∧
      (getTransform stubFail2 sStale 640 480).1.boundingRect = some ⟨-64, -64, 4096, 3072⟩ ∧
      (getTransform stubFail2 sStale 640 480).1.beamPosRectified = (384, 224) ∧
      sStale.beamPosRectified = (5, 5) ∧
      (getTransform stubFail2 sStale 640 480).1.perspectiveTransform2
        = sStale.perspectiveTransform2) := by
  constructor
  · refine ⟨rfl, ?_, rfl, rfl⟩
    norm_num [getTransform, sStale, zoomOf]
  · have hrun : getTransform stubFail2 sStale 640 480
        = ({ sStale with
              zoom := 64/5
              perspectiveTransform1 := some M1c
              boundingRect := some ⟨-64, -64, 4096, 3072⟩
              beamPosRectified := (384, 224)
              targetRect := some tgtA }, false) := by
      simp only [getTransform, sStale, stubFail2]
      norm_num [zoomOf, targetW, targetH, pytrunc, castPt, pOutA, tgtA,
        boundingRectQ, qmin, qmax, applyH, applyW, shiftPts, M1c]
    rw [hrun]
    refine ⟨rfl, rfl, ?_, rfl, rfl, rfl, rfl⟩
    norm_num [sStale, M1c]

/-- Composition of a homography with the translation by (-b.1, -b.2): the
matrix of the translation times M. -/
def translateH (b : ℚ × ℚ) (M : H33) : H33 :=
  ⟨M.m00 - b.1 * M.m20, M.m01 - b.1 * M.m21, M.m02 - b.1 * M.m22,
   M.m10 - b.2 * M.m20, M.m11 - b.2 * M.m21, M.m12 - b.2 * M.m22,
   M.m20, M.m21, M.m22⟩

/-- If M solves the 4-point system for the nominal targets, then the
translation composed with M solves the system for the shifted targets. -/
theorem translateH_isHom (b : ℚ × ℚ) {M : H33} {pIn pOut : List (ℚ × ℚ)}
    (h : IsHomographyFor M pIn pOut) :
    IsHomographyFor (translateH b M) pIn (shiftPts b pOut) := by
  obtain ⟨h22, hlen, hall⟩ := h
  refine ⟨h22, by simpa [shiftPts] using hlen, ?_⟩
  intro pq hpq
  rw [shiftPts, List.zip_map_right] at hpq
  obtain ⟨ab, hab, rfl⟩ := List.mem_map.1 hpq
  obtain ⟨ha, hb⟩ := hall ab hab
  unfold homoEq translateH
  simp only [Prod.map_fst, Prod.map_snd, id_eq]
  constructor
  · linear_combination ha
  · linear_combination hb

/-- C6: for a non-degenerate calibration (the shifted 4-point system has a
unique solution), the display transform - obtained by solving the 4-point
system from the canonical corners to the rectangle corners shifted by
(-b.1, -b.2) - is, as a projective map, the forward transform followed by
the translation by (-b.1, -b.2). -/
theorem c6_display_eq_shifted_forward (pIn pOut : List (ℚ × ℚ)) (b : ℚ × ℚ)
    (M1 M2 : H33)
    (h1 : IsHomographyFor M1 pIn pOut)
    (h2 : IsHomographyFor M2 pIn (shiftPts b pOut))
    (huniq : ∀ M M3 : H33, IsHomographyFor M pIn (shiftPts b pOut) →
      IsHomographyFor M3 pIn (shiftPts b pOut) → M = M3)
    (p : ℚ × ℚ) (hw : applyW M1 p ≠ 0) :
    applyH M2 p = ((applyH M1 p).1 - b.1, (applyH M1 p).2 - b.2) := by
  have hM2 : M2 = translateH b M1 := huniq M2 (translateH b M1) h2 (translateH_isHom b h1)
  subst hM2
  have hww : M1.m20 * p.1 + M1.m21 * p.2 + M1.m22 ≠ 0 := by
    unfold applyW at hw
    exact hw
  unfold applyH applyW translateH
  simp only [Prod.mk.injEq]
  constructor
  · field_simp [hww]
    ring
  · field_simp [hww]
    ring

/-- Unit square source corners used to witness the display-transform
equivalence. -/
def sqIn : List (ℚ × ℚ) := [(0, 0), (1, 0), (1, 1), (0, 1)]

/-- Witness shift vector. -/
def bC : ℚ × ℚ := (-1, -1)

/-- Identity homography. -/
def MId : H33 := ⟨1, 0, 0, 0, 1, 0, 0, 0, 1⟩

/-- Translation by (1, 1) as a homography. -/
def MT : H33 := ⟨1, 0, 1, 0, 1, 1, 0, 0, 1⟩

/-- The 4-point system from the unit square to the shifted unit square has
the translation as its only solution. -/
theorem sq_unique (M : H33) (h : IsHomographyFor M sqIn (shiftPts bC sqIn)) :
    M = MT := by
  obtain ⟨h22, hlen, hall⟩ := h
  have e1 := hall ((0, 0), (1, 1)) (by norm_num [sqIn, bC, shiftPts])
  have e2 := hall ((1, 0), (2, 1)) (by norm_num [sqIn, bC, shiftPts])
  have e3 := hall ((1, 1), (2, 2)) (by norm_num [sqIn, bC, shiftPts])
  have e4 := hall ((0, 1), (1, 2)) (by norm_num [sqIn, bC, shiftPts])
  obtain ⟨m00, m01, m02, m10, m11, m12, m20, m21, m22⟩ := M
  simp only [homoEq] at e1 e2 e3 e4
  simp only at h22
  subst h22
  obtain ⟨e1x, e1y⟩ := e1
  obtain ⟨e2x, e2y⟩ := e2
  obtain ⟨e3x, e3y⟩ := e3
  obtain ⟨e4x, e4y⟩ := e4
  norm_num at e1x e1y e2x e2y e3x e3y e4x e4y
  simp only [MT, H33.mk.injEq]
  refine ⟨?_, ?_, ?_, ?_, ?_, ?_, ?_, ?_, ?_⟩ <;> first | trivial | linarith

/-- Witness for C6: concrete forward and display transforms for the unit
square satisfying the hypotheses, and the conclusion at the point (3, 4). -/
theorem c6_display_eq_shifted_forward_witness :
    IsHomographyFor MId sqIn sqIn ∧
    IsHomographyFor MT sqIn (shiftPts bC sqIn) ∧
    applyW MId (3, 4) ≠ 0 ∧
    applyH MT (3, 4) = ((applyH MId (3, 4)).1 - bC.1, (applyH MId (3, 4)).2 - bC.2) := by
  have h1 : IsHomographyFor MId sqIn sqIn := by
    refine ⟨rfl, rfl, ?_⟩
    intro pq hpq
    simp [sqIn] at hpq
    rcases hpq with h | h | h | h <;> subst h <;> norm_num [homoEq, MId]
  have h2 : IsHomographyFor MT sqIn (shiftPts bC sqIn) := by
    refine ⟨rfl, by simp [shiftPts], ?_⟩
    intro pq hpq
    simp [sqIn, bC, shiftPts] at hpq
    rcases hpq with h | h | h | h <;> subst h <;> norm_num [homoEq, MT]
  have hw : applyW MId (3, 4) ≠ 0 := by norm_num [applyW, MId]
  exact ⟨h1, h2, hw,
    c6_display_eq_shifted_forward sqIn sqIn bC MId MT h1 h2
      (fun M M3 hM hM3 => (sq_unique M hM).trans (sq_unique M3 hM3).symm)
      (3, 4) hw⟩

/-- C7: in a calibrated state (forward transform and bounding box present,
mapped beam position as getTransform leaves it), the displacement produced
by moveToBeam is exactly (mapped clicked point minus mapped beam point)
divided by zoom, with the X component negated and the Y component
unchanged - in perspective mode the mapped points are the projective images
under the forward transform (the bounding-box shift cancels), and in
rectified mode they are the canvas click and the stored mapped beam. -/
theorem c7_moveToBeam_disp (s : OState) (M : H33) (br : BRect) (click : ℚ × ℚ)
    (hT : s.perspectiveTransform1 = some M) (hbr : s.boundingRect = some br)
    (hbeam : s.beamPosRectified
      = ((applyH M (castPt s.beamPos)).1 - (br.x : ℚ),
         (applyH M (castPt s.beamPos)).2 - (br.y : ℚ))) :
    moveToBeamDisp s false click
      = some (specDisp (applyH M click) (applyH M (castPt s.beamPos)) s.zoom) ∧
    moveToBeamDisp s true click
      = some (specDisp click s.beamPosRectified s.zoom) := by
  have ht : transformPoint s click
      = some ((applyH M click).1 - (br.x : ℚ), (applyH M click).2 - (br.y : ℚ)) := by
    unfold transformPoint
    rw [hT, hbr]
  constructor
  · unfold moveToBeamDisp
    rw [if_pos rfl, ht, hbeam]
    unfold specDisp
    simp only [Option.some.injEq, Prod.mk.injEq]
    constructor <;> ring_nf
  · unfold moveToBeamDisp
    rfl

/-- Witness for C7 at the Scenario A state with click (10, 10). -/
theorem c7_moveToBeam_disp_witness :
    sA.perspectiveTransform1 = some M1c ∧
    sA.boundingRect = some ⟨-64, -64, 4096, 3072⟩ ∧
    sA.beamPosRectified
      = ((applyH M1c (castPt sA.beamPos)).1 - ((-64 : ℤ) : ℚ),
         (applyH M1c (castPt sA.beamPos)).2 - ((-64 : ℤ) : ℚ)) ∧
    moveToBeamDisp sA false (10, 10)
      = some (specDisp (applyH M1c (10, 10)) (applyH M1c (castPt sA.beamPos)) sA.zoom) ∧
    moveToBeamDisp sA true (10, 10)
      = some (specDisp (10, 10) sA.beamPosRectified sA.zoom) := by
  have hbeam : sA.beamPosRectified
      = ((applyH M1c (castPt sA.beamPos)).1 - ((-64 : ℤ) : ℚ),
         (applyH M1c (castPt sA.beamPos)).2 - ((-64 : ℤ) : ℚ)) := by
    norm_num [sA, applyH, applyW, M1c, castPt]
  obtain ⟨g1, g2⟩ :=
    c7_moveToBeam_disp sA M1c ⟨-64, -64, 4096, 3072⟩ (10, 10) rfl rfl hbeam
  exact ⟨rfl, rfl, hbeam, g1, g2⟩

/-- C8: after any successful getTransform, querying the beam position
itself reports plate coordinates (0, 0), in both perspective and rectified
display modes. -/
theorem c8_beam_reports_zero
    (solve : List (ℚ × ℚ) → List (ℚ × ℚ) → Option H33)
    (s0 : OState) (W H : ℕ) (s : OState)
    (hct : canTransform s0 = true)
    (h : getTransform solve s0 W H = (s, true)) :
    plateCoords s false (castPt s.beamPos) = some (0, 0) ∧
    plateCoords s true s.beamPosRectified = some (0, 0) := by
  simp only [getTransform] at h
  split at h
  · exact absurd (congrArg Prod.snd h) (by simp)
  · rename_i T1 hT1
    split at h
    · exact absurd (congrArg Prod.snd h) (by simp)
    · rename_i T2 hT2
      have hs := congrArg Prod.fst h
      simp only at hs
      subst hs
      constructor
      · unfold plateCoords
        rw [if_pos (by simpa [canTransform] using hct)]
        rw [if_pos rfl]
        unfold transformPoint
        simp only [Option.some.injEq, Prod.mk.injEq, sub_self, zero_div]
      · unfold plateCoords
        rw [if_pos (by simpa [canTransform] using hct)]
        norm_num

/-- Witness for C8: the Scenario A calibration with beam at the rectangle
center (60, 35) reports plate coordinates (0, 0) at the beam itself. -/
theorem c8_beam_reports_zero_witness :
    canTransform sReady = true ∧
    getTransform stubA sReady 640 480 = (sA, true) ∧
    plateCoords sA false (castPt sA.beamPos) = some (0, 0) ∧
    plateCoords sA true sA.beamPosRectified = some (0, 0) := by
  have hct : canTransform sReady = true := by norm_num [canTransform, sReady]
  obtain ⟨g1, g2⟩ :=
    c8_beam_reports_zero stubA sReady 640 480 sA hct getTransform_sReady
  exact ⟨hct, getTransform_sReady, g1, g2⟩

end OrthoView
